import Mathlib

/-!
Verification of the eqx-index-tracker pipeline: a shallow embedding of the
index construction and metrics engine (data ingestion, equal-weight index
builder, daily metrics calculator, summary metrics calculator) together with
theorems settling the specification claims.

Modelling conventions:
* Dates are day ordinals (`ℤ`); SQL `BETWEEN`/`ORDER BY date` and Python
  `timedelta` arithmetic become integer comparison and subtraction.
* Ticker symbols and the serialized `tickers` column are `List Char`, so the
  `",".join` / `.split(",")` pair can be reasoned about character by character.
* Prices and derived rational quantities are `ℚ`; quantities whose Python
  counterpart takes a square root (standard deviations, correlations, ulcer
  index, skewness) live in `ℝ` via `Real.sqrt`, wrapped in `Option` where
  pandas/scipy produce NaN (modelled as SQL NULL).
* DuckDB tables are Lean lists of row structures; an SQL `INSERT` is a list
  append and the delete-then-insert upsert used by ingestion and the summary
  calculator is a filter followed by an append.
-/

/-- A character string (ticker symbol or serialized column). -/
abbrev Str := List Char

/-- A calendar date, as a day ordinal. -/
abbrev Date := ℤ

/-- The floor of a rational number, computed from its reduced fraction (the
denominator is positive, so Euclidean division of the numerator is exactly
the floor; `qfloor_eq_floor` below checks this against `Int.floor`). -/
def qfloor (x : ℚ) : ℤ := x.num / (x.den : ℤ)

/-- Banker's rounding of a rational to an integer, as Python's built-in
`round`: round half to even. -/
def roundHalfEven (x : ℚ) : ℤ :=
  let f := qfloor x
  let r := x - f
  if r < 1/2 then f
  else if 1/2 < r then f + 1
  else if 2 ∣ f then f else f + 1

/-- Python's `round(x, 4)`: round to four decimal places, half to even. -/
def round4 (x : ℚ) : ℚ := (roundHalfEven (x * 10000) : ℚ) / 10000

/-- Python's `",".join(l)`. -/
def joinComma : List Str → Str
  | [] => []
  | [s] => s
  | s :: rest => s ++ ',' :: joinComma rest

/-- Accumulator-passing core of Python's `s.split(",")`: `acc` holds the
reversed characters of the chunk currently being read. -/
def splitCommaAux (acc : Str) : Str → List Str
  | [] => [acc.reverse]
  | c :: cs => if c = ',' then acc.reverse :: splitCommaAux [] cs
               else splitCommaAux (c :: acc) cs

/-- Python's `s.split(",")`. -/
def splitComma (s : Str) : List Str := splitCommaAux [] s

/-- Insert `a` into `l` before the first element `b` with `le a b`
(insertion step of a stable sort). -/
def insertLeB (le : α → α → Bool) (a : α) : List α → List α
  | [] => [a]
  | b :: l => if le a b then a :: b :: l else b :: insertLeB le a l

/-- Stable insertion sort by the boolean relation `le`; models SQL
`ORDER BY`. -/
def sortLeB (le : α → α → Bool) : List α → List α
  | [] => []
  | b :: l => insertLeB le b (sortLeB le l)

/-- A row of the `stock_prices` table: `{date, ticker, close, market_cap}`,
keyed by `(date, ticker)`. -/
structure PriceRow where
  date : Date
  ticker : Str
  close : ℚ
  market_cap : ℚ
deriving DecidableEq, Repr, Inhabited

/-- A row of the `market_index` table: `{date, spy_close}`, keyed by date. -/
structure SpyRow where
  date : Date
  spy_close : ℚ
deriving DecidableEq, Repr, Inhabited

/-- A row of the `index_values` table written by `build_index`:
`{date, index_value, spy_value, tickers}`; `tickers` is the comma-joined
constituent list (nullable TEXT column). -/
structure IndexRow where
  date : Date
  index_value : ℚ
  spy_value : Option ℚ
  tickers : Option Str
deriving DecidableEq, Repr, Inhabited

/-- `index_builder.fetch_top_100_by_market_cap`: select the rows for `date`,
order by `market_cap` descending, take 100; `none` when fewer than 100 rows
exist for that date. -/
def fetch_top_100_by_market_cap (stock_prices : List PriceRow) (date : Date) :
    Option (List PriceRow) :=
  let df := (sortLeB (fun a b => decide (b.market_cap ≤ a.market_cap))
      (stock_prices.filter (fun r => r.date = date))).take 100
  if df.length < 100 then none else some df

/-- `index_builder.fetch_spy_value`: the SPY close for `date` rounded to four
decimal places, or `none` when the query returns no row. -/
def fetch_spy_value (market_index : List SpyRow) (date : Date) : Option ℚ :=
  match (market_index.filter (fun r => r.date = date)).head? with
  | some r => some (round4 r.spy_close)
  | none => none

/-- `index_builder.build_index`: compute the equal-weighted index value for
`date` and append one row to `index_values` (a plain `INSERT`, no delete);
when `fetch_top_100_by_market_cap` yields `none` the table is untouched. -/
def build_index (stock_prices : List PriceRow) (market_index : List SpyRow)
    (index_values : List IndexRow) (date : Date) : List IndexRow :=
  match fetch_top_100_by_market_cap stock_prices date with
  | none => index_values
  | some top =>
      index_values ++
        [{ date := date,
           index_value := round4 ((top.map (fun r => r.close * (1/100))).sum),
           spy_value := fetch_spy_value market_index date,
           tickers := some (joinComma (top.map PriceRow.ticker)) }]

/-- One hundred price rows for day 0, all closing at $10 with equal market
caps (the spec's all-at-$10 scenario universe). -/
def prices100 : List PriceRow :=
  List.replicate 100 { date := 0, ticker := ['T'], close := 10, market_cap := 1 }

/-- Whether `stock_prices` already holds a row whose `(date, ticker)` key
collides with a row of the incoming batch `df`. -/
def keyIn (r : PriceRow) (df : List PriceRow) : Bool :=
  df.any (fun s => s.date = r.date ∧ s.ticker = r.ticker)

/-- The `DELETE FROM stock_prices USING temp_df WHERE` statement of
`fetch_all_stocks_parallel`: remove every row whose `(date, ticker)` key
occurs in the batch `df`. -/
def deleteKeys (stock_prices : List PriceRow) (df : List PriceRow) :
    List PriceRow :=
  stock_prices.filter (fun r => ¬ keyIn r df)

/-- The complete delete-then-insert write block of
`data_ingestion.fetch_all_stocks_parallel` for one ticker's frame `df`:
the `DELETE` statement above followed by `INSERT INTO stock_prices`. -/
def upsert_stock_prices (stock_prices : List PriceRow) (df : List PriceRow) :
    List PriceRow :=
  deleteKeys stock_prices df ++ df

/-- Where the caught exception, if any, strikes inside one ticker's write
block: both statements succeed; the exception strikes before the `DELETE`
takes effect (register/DELETE itself raising); or the exception strikes
between the `DELETE` and the `INSERT` — the block runs inside the shared
transaction with no per-ticker rollback, so in that last case the deletion
stays in effect. -/
inductive WriteOutcome where
  | ok
  | failBeforeDelete
  | failAfterDelete
deriving DecidableEq, Repr, Inhabited

/-- Outcome of one ticker's work inside the ingestion pool: the prepared
frame (`none` when `fetch_and_prepare_stock_data` failed) and how far its
write block got. -/
structure FetchResult where
  ticker : Str
  frame : Option (List PriceRow)
  outcome : WriteOutcome
deriving DecidableEq, Repr, Inhabited

/-- Whether a per-ticker result ends with its rows in place: a valid frame
and both statements of the write block succeeded. -/
def writeSucceeds (r : FetchResult) : Bool :=
  r.frame.isSome && decide (r.outcome = WriteOutcome.ok)

/-- Processing of one completed future in `fetch_all_stocks_parallel`: a
valid frame whose write block completes is delete-then-inserted; a write
exception is caught mid-block (leaving a completed `DELETE` in effect, with
no per-ticker rollback) and the ticker appended to `failed_tickers`; a
failed fetch is likewise recorded. -/
def ingest_step (acc : List PriceRow × List Str) (r : FetchResult) :
    List PriceRow × List Str :=
  match r.frame with
  | some df =>
      match r.outcome with
      | WriteOutcome.ok => (upsert_stock_prices acc.1 df, acc.2)
      | WriteOutcome.failBeforeDelete => (acc.1, acc.2 ++ [r.ticker])
      | WriteOutcome.failAfterDelete => (deleteKeys acc.1 df, acc.2 ++ [r.ticker])
  | none => (acc.1, acc.2 ++ [r.ticker])

/-- `data_ingestion.fetch_all_stocks_parallel`, state view: fold the
completed per-ticker results over the `stock_prices` table inside the
shared transaction. `commit_ok` says whether the final `COMMIT` succeeds;
when it raises, the outer handler issues `ROLLBACK` — the table reverts to
its pre-transaction state — and extends `failed_tickers` with every ticker
not already recorded as failed. -/
def fetch_all_stocks_parallel (results : List FetchResult) (commit_ok : Bool)
    (stock_prices : List PriceRow) : List PriceRow × List Str :=
  let looped := results.foldl ingest_step (stock_prices, [])
  if commit_ok then looped
  else (stock_prices,
    looped.2 ++
      (results.filter (fun r => decide (r.ticker ∉ looped.2))).map FetchResult.ticker)

/-- Statement-level events issued on the shared DuckDB connection during
ingestion. -/
inductive TxEvent where
  | begin_tx
  | commit_tx
  | rollback_tx
  | delete_stmt (ticker : Str)
  | insert_stmt (ticker : Str)
deriving DecidableEq, Repr

/-- The statements one ticker's write block issues inside the shared
transaction, cut short where its exception strikes. -/
def tickerEvents (r : FetchResult) : List TxEvent :=
  match r.frame with
  | none => []
  | some _ =>
      match r.outcome with
      | WriteOutcome.ok => [TxEvent.delete_stmt r.ticker, TxEvent.insert_stmt r.ticker]
      | WriteOutcome.failBeforeDelete => []
      | WriteOutcome.failAfterDelete => [TxEvent.delete_stmt r.ticker]

/-- `data_ingestion.fetch_all_stocks_parallel`, transaction-trace view: one
`BEGIN TRANSACTION` before the completion loop, the per-ticker statements in
completion order inside the shared transaction, and one final `COMMIT` — or
one final `ROLLBACK` when committing raises and the outer handler fires. -/
def ingest_trace (results : List FetchResult) (commit_ok : Bool) : List TxEvent :=
  [TxEvent.begin_tx] ++ results.flatMap tickerEvents ++
    (if commit_ok then [TxEvent.commit_tx] else [TxEvent.rollback_tx])

/-- Number of `COMMIT` statements in a transaction trace. -/
def commitCount (tr : List TxEvent) : ℕ :=
  (tr.filter (fun e => e = TxEvent.commit_tx)).length

/-- Number of `ROLLBACK` statements in a transaction trace. -/
def rollbackCount (tr : List TxEvent) : ℕ :=
  (tr.filter (fun e => e = TxEvent.rollback_tx)).length

/-- Whether an event is an `INSERT` statement. -/
def isInsertStmt : TxEvent → Bool
  | TxEvent.insert_stmt _ => true
  | _ => false

/-- Number of completed `INSERT` statements in a trace. -/
def writeCount (tr : List TxEvent) : ℕ :=
  (tr.filter isInsertStmt).length

/-- Whether `r`'s frame holds a row with key `(d, t)` — the keys whose table
rows `r`'s write block can touch. -/
def touchesKey (r : FetchResult) (d : Date) (t : Str) : Bool :=
  match r.frame with
  | some df => df.any (fun s => s.date = d ∧ s.ticker = t)
  | none => false

/-- The effect of `ingest_step` on the table restricted to the single key
`(d, t)` (used to state and prove key-level failure isolation). -/
def viewStep (d : Date) (t : Str) (V : List PriceRow) (r : FetchResult) :
    List PriceRow :=
  match r.frame with
  | none => V
  | some df =>
      match r.outcome with
      | WriteOutcome.ok =>
          deleteKeys V df ++ df.filter (fun s => decide (s.date = d ∧ s.ticker = t))
      | WriteOutcome.failBeforeDelete => V
      | WriteOutcome.failAfterDelete => deleteKeys V df

/-- Number of rows of `stock_prices` carrying the key `(d, t)`. -/
def countKey (stock_prices : List PriceRow) (d : Date) (t : Str) : ℕ :=
  (stock_prices.filter (fun r => r.date = d ∧ r.ticker = t)).length

/-- Arithmetic mean of a list of rationals (pandas `.mean()`; division by a
zero length follows the Lean convention `x / 0 = 0`). -/
def meanQ (l : List ℚ) : ℚ := l.sum / l.length

/-- Sample variance with one delta degree of freedom (square of pandas
`.std()`, `ddof=1`); the `n ≤ 1` cases divide by a non-positive number and
collapse to `0`, mirroring pandas returning NaN there (never `> 0`). -/
def sampleVarQ (l : List ℚ) : ℚ :=
  ((l.map (fun x => (x - meanQ l) ^ 2)).sum) / ((l.length : ℚ) - 1)

/-- Sample covariance with one delta degree of freedom. -/
def sampleCovQ (xs ys : List ℚ) : ℚ :=
  ((List.zipWith (fun x y => (x - meanQ xs) * (y - meanQ ys)) xs ys).sum) /
    ((xs.length : ℚ) - 1)

/-- Sample standard deviation (pandas `.std()`), as a real number. -/
noncomputable def stdR (l : List ℚ) : ℝ := Real.sqrt (sampleVarQ l)

/-- pandas `.pct_change().fillna(0)`: elementwise relative change against the
previous entry, `0` in the first position. -/
def pctChange : List ℚ → List ℚ
  | [] => []
  | x :: xs => 0 :: List.zipWith (fun prev cur => (cur - prev) / prev) (x :: xs) xs

/-- Running-product core of `(1 + r).cumprod() - 1`. -/
def cumRetAux (acc : ℚ) : List ℚ → List ℚ
  | [] => []
  | r :: rest => (acc * (1 + r) - 1) :: cumRetAux (acc * (1 + r)) rest

/-- `(1 + daily_return).cumprod() - 1` (cumulative return). -/
def cumRet (l : List ℚ) : List ℚ := cumRetAux 1 l

/-- Running-maximum core of pandas `.cummax()`. -/
def cumMaxAux (m : ℚ) : List ℚ → List ℚ
  | [] => []
  | v :: rest => max m v :: cumMaxAux (max m v) rest

/-- pandas `.cummax()`. -/
def cumMax : List ℚ → List ℚ
  | [] => []
  | v :: rest => v :: cumMaxAux v rest

/-- The trailing window of width 7 ending at position `i`. -/
def window7 (l : List ℚ) (i : ℕ) : List ℚ := (l.take (i + 1)).drop (i + 1 - 7)

/-- pandas `.rolling(7).std()`: NaN (here `none`) until seven observations
exist, then the sample standard deviation of the trailing window. -/
noncomputable def rollingStd7 (l : List ℚ) : List (Option ℝ) :=
  (List.range l.length).map (fun i =>
    if i + 1 < 7 then none else some (Real.sqrt (sampleVarQ (window7 l i))))

/-- pandas `.rolling(7).corr(other)`: NaN (`none`) until seven observations
exist or when either window has zero variance, otherwise the sample
correlation of the trailing windows. -/
noncomputable def rollingCorr7 (xs ys : List ℚ) : List (Option ℝ) :=
  (List.range xs.length).map (fun i =>
    if i + 1 < 7 then none
    else
      let wx := window7 xs i
      let wy := window7 ys i
      if sampleVarQ wx = 0 ∨ sampleVarQ wy = 0 then none
      else some ((sampleCovQ wx wy : ℝ) /
        (Real.sqrt (sampleVarQ wx) * Real.sqrt (sampleVarQ wy))))

/-- The lambda on the `tickers` column in `compute_daily_metrics`:
`x.split(",") if isinstance(x, str) else []`. -/
def tickersOf : Option Str → List Str
  | some s => splitComma s
  | none => []

/-- Python's `set.symmetric_difference`. -/
def symmDiffF (a b : Finset Str) : Finset Str := (a \ b) ∪ (b \ a)

/-- The similarity expression of `compute_daily_metrics`:
`len(curr & prev) / len(curr | prev) if curr | prev else 1.0`. -/
def jaccard (curr prev : Finset Str) : ℚ :=
  if curr ∪ prev = ∅ then 1
  else ((curr ∩ prev).card : ℚ) / ((curr ∪ prev).card : ℚ)

/-- Loop body of the turnover computation: for each day after the first,
`len(curr.symmetric_difference(prev))`. -/
def turnoverAux (prev : Finset Str) : List (Finset Str) → List ℕ
  | [] => []
  | c :: rest => (symmDiffF c prev).card :: turnoverAux c rest

/-- The `turnover` column: `0` for the first observation, then the size of
the symmetric difference of consecutive constituent sets. -/
def turnovers : List (Finset Str) → List ℕ
  | [] => []
  | t :: ts => 0 :: turnoverAux t ts

/-- Loop body of the exposure-similarity computation. -/
def simAux (prev : Finset Str) : List (Finset Str) → List ℚ
  | [] => []
  | c :: rest => jaccard c prev :: simAux c rest

/-- The `exposure_similarity` column: `1.0` for the first observation, then
the Jaccard index of consecutive constituent sets. -/
def sims : List (Finset Str) → List ℚ
  | [] => []
  | t :: ts => 1 :: simAux t ts

/-- Accumulator form of pandas `drop_duplicates(subset=["date"])`: drop any
row whose date was already seen. -/
def dedupByDateAux (seen : List Date) : List (IndexRow × SpyRow) → List (IndexRow × SpyRow)
  | [] => []
  | p :: ps =>
      if p.1.date ∈ seen then dedupByDateAux seen ps
      else p :: dedupByDateAux (p.1.date :: seen) ps

/-- pandas `drop_duplicates(subset=["date"])` on the merged frame: keep the
first row for each date. -/
def dedupByDate (l : List (IndexRow × SpyRow)) : List (IndexRow × SpyRow) :=
  dedupByDateAux [] l

/-- A row of the `index_metrics` table written by `compute_daily_metrics`. -/
structure MetricRow where
  date : Date
  index_value : ℚ
  spy_close : ℚ
  daily_return : ℚ
  spy_return : ℚ
  cumulative_return : ℚ
  rolling_volatility : Option ℝ
  rolling_beta_7d : Option ℝ
  rolling_max : ℚ
  drawdown : ℚ
  drawdown_pct : ℚ
  tickers : List Str
  turnover : ℕ
  exposure_similarity : ℚ
deriving Inhabited

/-- Column computations of `compute_daily_metrics` over the merged,
date-deduplicated frame `ms`, producing one `index_metrics`-shaped row per
input row, in order. -/
noncomputable def buildMetricRows (ms : List (IndexRow × SpyRow)) : List MetricRow :=
  let values := ms.map (fun p => p.1.index_value)
  let spys := ms.map (fun p => p.2.spy_close)
  let rets := pctChange values
  let srets := pctChange spys
  let cums := cumRet rets
  let maxs := cumMax values
  let vols := rollingStd7 rets
  let betas := rollingCorr7 rets srets
  let ticks := ms.map (fun p => tickersOf p.1.tickers)
  let tsets := ticks.map (fun l => l.toFinset)
  let turns := turnovers tsets
  let simsl := sims tsets
  (List.range ms.length).map (fun i =>
    let v := values.getD i 0
    let m := maxs.getD i 0
    { date := (ms.getD i default).1.date
      index_value := v
      spy_close := spys.getD i 0
      daily_return := rets.getD i 0
      spy_return := srets.getD i 0
      cumulative_return := cums.getD i 0
      rolling_volatility := vols.getD i none
      rolling_beta_7d := betas.getD i none
      rolling_max := m
      drawdown := (v - m) / m
      drawdown_pct := (v - m) / m * 100
      tickers := ticks.getD i []
      turnover := turns.getD i 0
      exposure_similarity := simsl.getD i 1 })

/-- The merged frame of `compute_daily_metrics`:
`index_df.merge(spy_df, on="date", how="inner")` over the 7-calendar-day
lookback windows, followed by `drop_duplicates(subset=["date"])`. -/
def mergedFrame (index_values : List IndexRow) (market_index : List SpyRow)
    (date : Date) : List (IndexRow × SpyRow) :=
  let lookback_start := date - 6
  let index_df := sortLeB (fun a b => decide (a.date ≤ b.date))
    (index_values.filter (fun r => lookback_start ≤ r.date ∧ r.date ≤ date))
  let spy_df := sortLeB (fun a b => decide (a.date ≤ b.date))
    (market_index.filter (fun r => lookback_start ≤ r.date ∧ r.date ≤ date))
  dedupByDate (index_df.flatMap (fun r =>
    (spy_df.filter (fun s => s.date = r.date)).map (fun s => (r, s))))

/-- The rows `daily_metrics_calculator.compute_daily_metrics` inserts for
`date`: load the 7-calendar-day windows of `index_values` and `market_index`,
inner-merge on date, deduplicate, compute the metric columns, and keep only
the row whose date is the target; empty when either input window is empty or
the target date is absent from the merge. -/
noncomputable def daily_metric_rows (index_values : List IndexRow)
    (market_index : List SpyRow) (date : Date) : List MetricRow :=
  let lookback_start := date - 6
  let index_df := sortLeB (fun a b => decide (a.date ≤ b.date))
    (index_values.filter (fun r => lookback_start ≤ r.date ∧ r.date ≤ date))
  let spy_df := sortLeB (fun a b => decide (a.date ≤ b.date))
    (market_index.filter (fun r => lookback_start ≤ r.date ∧ r.date ≤ date))
  if index_df.isEmpty || spy_df.isEmpty then []
  else if (mergedFrame index_values market_index date).any
      (fun p => decide (p.1.date = date)) then
    (buildMetricRows (mergedFrame index_values market_index date)).filter
      (fun r => r.date = date)
  else []

/-- `daily_metrics_calculator.compute_daily_metrics`, as a transformation of
the `index_metrics` table: the computed rows for `date` are appended by a
plain `INSERT` (no delete of prior rows). -/
noncomputable def compute_daily_metrics (index_values : List IndexRow)
    (market_index : List SpyRow) (index_metrics : List MetricRow)
    (date : Date) : List MetricRow :=
  index_metrics ++ daily_metric_rows index_values market_index date

/-- Loop of `summary_metrics_calculator.max_consecutive_streak`, carrying the
best and current streak lengths. -/
def streakAux (pos : Bool) (maxS cur : ℕ) : List ℚ → ℕ
  | [] => Nat.max maxS cur
  | v :: rest =>
      if (pos && decide (0 < v)) || (!pos && decide (v < 0))
      then streakAux pos maxS (cur + 1) rest
      else streakAux pos (Nat.max maxS cur) 0 rest

/-- `summary_metrics_calculator.max_consecutive_streak`: longest run of
consecutive positive (or negative) values. -/
def max_consecutive_streak (series : List ℚ) (positive : Bool) : ℕ :=
  streakAux positive 0 0 series

/-- pandas `Series.quantile(q)` with linear interpolation on the sorted
values. -/
def quantileQ (l : List ℚ) (q : ℚ) : ℚ :=
  let s := sortLeB (fun a b => decide (a ≤ b)) l
  let n := s.length
  if n = 0 then 0
  else
    let pos := q * ((n : ℚ) - 1)
    let i := (qfloor pos).toNat
    let frac := pos - qfloor pos
    let lo := s.getD i 0
    let hi := s.getD (i + 1) lo
    lo + frac * (hi - lo)

/-- The k-th central moment (biased, the scipy default). -/
def centralMoment (l : List ℚ) (k : ℕ) : ℚ :=
  meanQ (l.map (fun x => (x - meanQ l) ^ k))

/-- scipy `skew`: `m3 / m2**1.5`, NaN (`none`) on zero variance. -/
noncomputable def skewR (l : List ℚ) : Option ℝ :=
  let m2 := centralMoment l 2
  if m2 = 0 then none
  else some ((centralMoment l 3 : ℝ) / Real.sqrt (m2 : ℚ) ^ 3)

/-- scipy `kurtosis` (Fisher): `m4 / m2**2 - 3`, NaN (`none`) on zero
variance. -/
def kurtQ (l : List ℚ) : Option ℚ :=
  let m2 := centralMoment l 2
  if m2 = 0 then none else some (centralMoment l 4 / m2 ^ 2 - 3)

/-- The Sharpe-ratio expression of `compute_summary_metrics`:
`mean(r) / std(r) if std(r) > 0 else 0`; the guard is stated on the sample
variance, which is positive exactly when the standard deviation is. -/
noncomputable def sharpe_of (rs : List ℚ) : ℝ :=
  if 0 < sampleVarQ rs then (meanQ rs : ℝ) / stdR rs else 0

/-- The Sortino-ratio expression: mean of all returns over the standard
deviation of the negative returns, `0` when the latter is not positive
(including the NaN cases of a downside sample of size below two). -/
noncomputable def sortino_of (rs : List ℚ) : ℝ :=
  let ds := rs.filter (fun x => decide (x < 0))
  if 0 < sampleVarQ ds then (meanQ rs : ℝ) / stdR ds else 0

/-- Python `(1 + final_return) ** (252 / days) - 1 if days > 0 else 0`. -/
noncomputable def annualizedReturn (fr : ℚ) (days : ℕ) : ℝ :=
  if 0 < days then Real.rpow (1 + (fr : ℝ)) ((252 : ℝ) / days) - 1 else 0

/-- pandas `Series.idxmax` followed by `df.loc[..]`: the first row attaining
the maximum of `f`. -/
def idxmaxBy (f : MetricRow → ℚ) : List MetricRow → Option MetricRow
  | [] => none
  | x :: xs => some (xs.foldl (fun b r => if f b < f r then r else b) x)

/-- pandas `Series.idxmin` followed by `df.loc[..]`: the first row attaining
the minimum of `f`. -/
def idxminBy (f : MetricRow → ℚ) : List MetricRow → Option MetricRow
  | [] => none
  | x :: xs => some (xs.foldl (fun b r => if f r < f b then r else b) x)

/-- pandas `.min()` over a nonempty column (`0` for the unreached empty
case). -/
def minQ : List ℚ → ℚ
  | [] => 0
  | x :: xs => xs.foldl min x

/-- A row of the `summary_metrics` table, keyed by `(date, window_days)`;
all metric columns are nullable. -/
structure SummaryRow where
  date : Date
  window_days : ℕ
  best_day : Option Date
  worst_day : Option Date
  max_drawdown : Option ℚ
  final_return : Option ℚ
  avg_daily_return : Option ℚ
  volatility : Option ℝ
  sharpe_val : Option ℝ
  sortino_val : Option ℝ
  ulcer_index : Option ℝ
  annualized_return : Option ℝ
  annualized_volatility : Option ℝ
  up_capture : Option ℚ
  down_capture : Option ℚ
  win_rate : Option ℚ
  avg_turnover : Option ℚ
  total_rebalances : Option ℕ
  avg_exposure_similarity : Option ℚ
  var_95 : Option ℚ
  var_99 : Option ℚ
  return_skewness : Option ℝ
  return_kurtosis : Option ℚ
  max_gain_streak : Option ℕ
  max_loss_streak : Option ℕ
deriving Inhabited

/-- The all-null summary row inserted when the window holds fewer than two
observations, keyed by `(end_date, window_days)`. -/
def nullSummaryRow (d : Date) (w : ℕ) : SummaryRow :=
  { date := d, window_days := w, best_day := none, worst_day := none,
    max_drawdown := none, final_return := none, avg_daily_return := none,
    volatility := none, sharpe_val := none, sortino_val := none,
    ulcer_index := none, annualized_return := none,
    annualized_volatility := none, up_capture := none, down_capture := none,
    win_rate := none, avg_turnover := none, total_rebalances := none,
    avg_exposure_similarity := none, var_95 := none, var_99 := none,
    return_skewness := none, return_kurtosis := none, max_gain_streak := none,
    max_loss_streak := none }

/-- The data branch of `compute_summary_metrics`: the summary statistics of
the window `df` (at least two rows), keyed by `(end_date, window_days)`. -/
noncomputable def dataSummaryRow (w : ℕ) (d : Date) (df : List MetricRow) :
    SummaryRow :=
  let rs := df.map MetricRow.daily_return
  let fr := ((rs.map (fun r => 1 + r)).prod) - 1
  let days := df.length
  let up := df.filter (fun r => decide (0 < r.spy_return))
  let down := df.filter (fun r => decide (r.spy_return < 0))
  { date := d, window_days := w,
    best_day := (idxmaxBy MetricRow.daily_return df).map MetricRow.date,
    worst_day := (idxminBy MetricRow.daily_return df).map MetricRow.date,
    max_drawdown := some (minQ (df.map MetricRow.drawdown)),
    final_return := some fr,
    avg_daily_return := some (meanQ rs),
    volatility := some (stdR rs),
    sharpe_val := some (sharpe_of rs),
    sortino_val := some (sortino_of rs),
    ulcer_index := some (Real.sqrt ((meanQ (df.map (fun r => r.drawdown_pct ^ 2)) : ℚ) : ℝ)),
    annualized_return := some (annualizedReturn fr days),
    annualized_volatility := some (stdR rs * Real.sqrt 252),
    up_capture := some (if up.isEmpty then 0
      else meanQ (up.map MetricRow.daily_return) / meanQ (up.map MetricRow.spy_return)),
    down_capture := some (if down.isEmpty then 0
      else meanQ (down.map MetricRow.daily_return) / meanQ (down.map MetricRow.spy_return)),
    win_rate := some (((rs.filter (fun x => decide (0 < x))).length : ℚ) / (rs.length : ℚ)),
    avg_turnover := some (meanQ (df.map (fun r => (r.turnover : ℚ)))),
    total_rebalances := some ((df.filter (fun r => decide (0 < r.turnover))).length),
    avg_exposure_similarity := some (meanQ (df.map MetricRow.exposure_similarity)),
    var_95 := some (quantileQ rs (5/100)),
    var_99 := some (quantileQ rs (1/100)),
    return_skewness := skewR rs,
    return_kurtosis := kurtQ rs,
    max_gain_streak := some (max_consecutive_streak rs true),
    max_loss_streak := some (max_consecutive_streak rs false) }

/-- Body of `compute_summary_metrics` for a known lookback width `w` (the
value `Config.get_fetch_days()` is intended to return): select the window
`[end_date - w, end_date]` of `index_metrics`, build the null or data summary
row, delete any existing `(end_date, window_days)` row and insert the new
one. -/
noncomputable def summary_step (w : ℕ) (index_metrics : List MetricRow)
    (summary_metrics : List SummaryRow) (d : Date) : List SummaryRow :=
  let df := sortLeB (fun a b => decide (a.date ≤ b.date))
    (index_metrics.filter (fun r => d - (w : ℤ) ≤ r.date ∧ r.date ≤ d))
  let row := if df.length < 2 then nullSummaryRow d (w : ℕ) else dataSummaryRow w d df
  summary_metrics.filter (fun s => decide (¬ (s.date = d ∧ s.window_days = w))) ++ [row]

/-- What `Config.get_fetch_days` resolves to on the `Config` class of
`src/config.py`: the class defines `FETCH_DAYS` but never a `get_fetch_days`
method, so the attribute lookup fails (`none` models the `AttributeError`). -/
def Config_get_fetch_days : Option ℕ := none

/-- `summary_metrics_calculator.compute_summary_metrics` as shipped: the very
first use of `Config.get_fetch_days()` raises `AttributeError`, the generic
handler catches it, and the `summary_metrics` table is left untouched; only
if the method existed would `summary_step` run. -/
noncomputable def compute_summary_metrics (index_metrics : List MetricRow)
    (summary_metrics : List SummaryRow) (d : Date) : List SummaryRow :=
  match Config_get_fetch_days with
  | none => summary_metrics
  | some w => summary_step w index_metrics summary_metrics d

/-- A one-row `index_values` table and a matching `market_index` row for day
10, used as a concrete dataset for the daily-metrics theorems. -/
def iv1 : List IndexRow :=
  [{ date := 10, index_value := 100, spy_value := some 400,
     tickers := some (joinComma [['A'], ['B']]) }]

/-- The `market_index` companion of `iv1`. -/
def mi1 : List SpyRow := [{ date := 10, spy_close := 400 }]

/-- A concrete `index_metrics` row for day 5 (a one-observation window for
the summary calculator). -/
def mrow5 : MetricRow :=
  { date := 5, index_value := 100, spy_close := 400, daily_return := 0,
    spy_return := 0, cumulative_return := 0, rolling_volatility := none,
    rolling_beta_7d := none, rolling_max := 100, drawdown := 0,
    drawdown_pct := 0, tickers := [['A'], ['B']], turnover := 0,
    exposure_similarity := 1 }

/-- A concrete `index_metrics` row for day 7, used to watch what a call for
day 10 does to rows of other dates. -/
def mrow7 : MetricRow :=
  { date := 7, index_value := 90, spy_close := 390, daily_return := 0,
    spy_return := 0, cumulative_return := 0, rolling_volatility := none,
    rolling_beta_7d := none, rolling_max := 90, drawdown := 0,
    drawdown_pct := 0, tickers := [['A'], ['B']], turnover := 0,
    exposure_similarity := 1 }

/-- Two per-ticker ingestion results that both fetch and write
successfully. -/
def resA : FetchResult :=
  { ticker := ['A'],
    frame := some [{ date := 0, ticker := ['A'], close := 5, market_cap := 7 }],
    outcome := WriteOutcome.ok }

/-- Second successful ingestion result. -/
def resB : FetchResult :=
  { ticker := ['B'],
    frame := some [{ date := 0, ticker := ['B'], close := 6, market_cap := 9 }],
    outcome := WriteOutcome.ok }

/-- A pre-existing `stock_prices` row for ticker `C` on day 0. -/
def rowC0 : PriceRow :=
  { date := 0, ticker := ['C'], close := 3, market_cap := 4 }

/-- A fresh frame row for ticker `C` on day 0, replacing `rowC0`'s key. -/
def rowC1 : PriceRow :=
  { date := 0, ticker := ['C'], close := 5, market_cap := 6 }

/-- An ingestion result for ticker `C` whose write block raises between the
`DELETE` and the `INSERT`. -/
def resC : FetchResult :=
  { ticker := ['C'], frame := some [rowC1],
    outcome := WriteOutcome.failAfterDelete }

theorem qfloor_eq_floor (x : ℚ) : qfloor x = ⌊x⌋ := Rat.floor_def.symm

theorem length_insertLeB (le : α → α → Bool) (a : α) (l : List α) :
    (insertLeB le a l).length = l.length + 1 := by
  induction l with
  | nil => rfl
  | cons b l ih =>
      simp only [insertLeB]
      split <;> simp [ih]

theorem length_sortLeB (le : α → α → Bool) (l : List α) :
    (sortLeB le l).length = l.length := by
  induction l with
  | nil => rfl
  | cons b l ih => simp [sortLeB, length_insertLeB, ih]

theorem fetch_top_100_length {sp : List PriceRow} {d : Date}
    {top : List PriceRow} (h : fetch_top_100_by_market_cap sp d = some top) :
    top.length = 100 := by
  simp only [fetch_top_100_by_market_cap] at h
  split at h
  · exact absurd h (by simp)
  · rename_i hlen
    cases h
    simp only [List.length_take] at hlen ⊢
    omega

theorem fetch_top_100_skip {sp : List PriceRow} {d : Date}
    (h : (sp.filter (fun r => r.date = d)).length < 100) :
    fetch_top_100_by_market_cap sp d = none := by
  unfold fetch_top_100_by_market_cap
  have hlen : ((sortLeB (fun a b => decide (b.market_cap ≤ a.market_cap))
      (sp.filter (fun r => r.date = d))).take 100).length < 100 := by
    simp only [List.length_take, length_sortLeB]
    omega
  simp only [hlen, if_pos]

theorem splitCommaAux_append {s : Str} (hs : ',' ∉ s) (acc : Str) (xs : Str) :
    splitCommaAux acc (s ++ xs) = splitCommaAux (s.reverse ++ acc) xs := by
  induction s generalizing acc with
  | nil => simp [splitCommaAux]
  | cons c cs ih =>
      have hc : ¬ c = ',' := fun h => hs (h ▸ List.mem_cons_self c cs)
      have hcs : ',' ∉ cs := fun h => hs (List.mem_cons_of_mem c h)
      simp only [List.cons_append, splitCommaAux, if_neg hc, List.reverse_cons,
        List.append_assoc, List.singleton_append]
      exact ih hcs (c :: acc)

/-- C10 counterexample: for the empty list — vacuously a list of non-empty,
comma-free symbols — joining and splitting does not return the original
list: `"".split(",")` is `[""]`, not `[]`. -/
theorem split_join_empty :
    (∀ s ∈ ([] : List Str), s ≠ [] ∧ ',' ∉ s) ∧
      splitComma (joinComma ([] : List Str)) ≠ ([] : List Str) := by
  constructor
  · intro s hs
    cases hs
  · decide

/-- C10 (amended): for every non-empty list of non-empty, comma-free ticker
symbols, joining with `","` as `build_index` does and splitting on `","` as
`compute_daily_metrics` does returns the original list in order. -/
theorem split_join_roundtrip (l : List Str) (hne : l ≠ [])
    (h : ∀ s ∈ l, s ≠ [] ∧ ',' ∉ s) : splitComma (joinComma l) = l := by
  induction l with
  | nil => exact absurd rfl hne
  | cons s rest ih =>
      cases rest with
      | nil =>
          have hs : ',' ∉ s := (h s (List.mem_cons_self s [])).2
          have := splitCommaAux_append hs [] []
          simp only [List.append_nil] at this
          simp [splitComma, joinComma, this, splitCommaAux]
      | cons t rest' =>
          have hs : ',' ∉ s := (h s (List.mem_cons_self s _)).2
          have hrec : splitComma (joinComma (t :: rest')) = t :: rest' :=
            ih (by simp) (fun x hx => h x (List.mem_cons_of_mem s hx))
          show splitCommaAux [] (joinComma (s :: t :: rest')) = s :: t :: rest'
          have hjoin : joinComma (s :: t :: rest') = s ++ ',' :: joinComma (t :: rest') := rfl
          rw [hjoin, splitCommaAux_append hs]
          simp only [List.append_nil, splitCommaAux, if_pos rfl]
          simp [hrec, splitComma] at hrec ⊢
          exact hrec

/-- C10 witness: a concrete two-symbol round trip. -/
theorem split_join_roundtrip_witness :
    splitComma (joinComma [['A'], ['B']]) = [['A'], ['B']] :=
  split_join_roundtrip [['A'], ['B']] (by decide) (by decide)

/-- C1: for every date, `build_index` either leaves `index_values` untouched
or appends a single snapshot whose serialized constituents come from a list
of exactly 100 tickers; when fewer than 100 price rows exist for the date it
writes nothing. -/
theorem build_index_all_or_nothing (sp : List PriceRow) (mi : List SpyRow)
    (iv : List IndexRow) (d : Date) :
    (((sp.filter (fun r => r.date = d)).length < 100) →
        build_index sp mi iv d = iv) ∧
    (build_index sp mi iv d = iv ∨
      ∃ ts : List Str, ts.length = 100 ∧
        ∃ v : ℚ, ∃ s : Option ℚ, build_index sp mi iv d =
          iv ++ [{ date := d, index_value := v, spy_value := s,
                   tickers := some (joinComma ts) }]) := by
  constructor
  · intro h
    unfold build_index
    rw [fetch_top_100_skip h]
  · cases h : fetch_top_100_by_market_cap sp d with
    | none =>
        left
        unfold build_index
        rw [h]
    | some top =>
        right
        refine ⟨top.map PriceRow.ticker, ?_,
          round4 ((top.map (fun r => r.close * (1/100))).sum),
          fetch_spy_value mi d, ?_⟩
        · simp [fetch_top_100_length h]
        · unfold build_index
          rw [h]

/-- C1 witness: with an empty `stock_prices` table (zero rows for the date),
`build_index` writes nothing. -/
theorem build_index_all_or_nothing_witness : build_index [] [] [] 0 = [] :=
  (build_index_all_or_nothing [] [] [] 0).1 (by decide)

/-- C6: whenever the top-100 selection succeeds, the persisted index value
is the four-decimal rounding of the arithmetic mean of the 100 selected
close prices (the code's sum of `close * (1/100)` equals that mean). -/
theorem build_index_value_is_mean (sp : List PriceRow) (mi : List SpyRow)
    (iv : List IndexRow) (d : Date) (top : List PriceRow)
    (h : fetch_top_100_by_market_cap sp d = some top) :
    top.length = 100 ∧
    build_index sp mi iv d =
      iv ++ [{ date := d,
               index_value := round4 (((top.map PriceRow.close).sum) /
                 ((top.map PriceRow.close).length : ℚ)),
               spy_value := fetch_spy_value mi d,
               tickers := some (joinComma (top.map PriceRow.ticker)) }] := by
  have hlen : top.length = 100 := fetch_top_100_length h
  refine ⟨hlen, ?_⟩
  have hsum : (top.map (fun r => r.close * (1/100))).sum =
      ((top.map PriceRow.close).sum) / ((top.map PriceRow.close).length : ℚ) := by
    rw [List.sum_map_mul_right]
    simp [hlen, div_eq_mul_inv]
  have hb : build_index sp mi iv d =
      iv ++ [{ date := d,
               index_value := round4 ((top.map (fun r => r.close * (1/100))).sum),
               spy_value := fetch_spy_value mi d,
               tickers := some (joinComma (top.map PriceRow.ticker)) }] := by
    unfold build_index
    rw [h]
  rw [hb, hsum]

set_option maxRecDepth 100000 in
/-- C6 witness: the spec scenario — 100 constituents all closing at $10
yield a persisted index value of exactly 10. -/
theorem build_index_value_is_mean_witness :
    (build_index prices100 [] [] 0).map IndexRow.index_value = [(10 : ℚ)] := by
  have h := build_index_value_is_mean prices100 [] [] 0
    (List.replicate 100 { date := 0, ticker := ['T'], close := 10, market_cap := 1 })
    (by decide)
  rw [h.2]
  with_unfolding_all decide

theorem tickerEvents_terminal_free {r : FetchResult} {e : TxEvent}
    (he : e ∈ tickerEvents r) :
    e ≠ TxEvent.commit_tx ∧ e ≠ TxEvent.rollback_tx := by
  rcases r with ⟨tk, fr, oc⟩
  cases fr with
  | none => simp [tickerEvents] at he
  | some df =>
      cases oc with
      | ok =>
          simp only [tickerEvents] at he
          rcases List.mem_cons.mp he with rfl | he'
          · exact ⟨by simp, by simp⟩
          · rcases List.mem_cons.mp he' with rfl | he''
            · exact ⟨by simp, by simp⟩
            · cases he''
      | failBeforeDelete => simp [tickerEvents] at he
      | failAfterDelete =>
          simp only [tickerEvents] at he
          rcases List.mem_cons.mp he with rfl | he'
          · exact ⟨by simp, by simp⟩
          · cases he'

theorem flatMap_tickerEvents_no_commit (rs : List FetchResult) :
    (rs.flatMap tickerEvents).filter (fun e => e = TxEvent.commit_tx) = [] := by
  apply List.filter_eq_nil_iff.mpr
  intro e he
  rcases List.mem_flatMap.mp he with ⟨r, _, hr⟩
  simp [(tickerEvents_terminal_free hr).1]

theorem flatMap_tickerEvents_no_rollback (rs : List FetchResult) :
    (rs.flatMap tickerEvents).filter (fun e => e = TxEvent.rollback_tx) = [] := by
  apply List.filter_eq_nil_iff.mpr
  intro e he
  rcases List.mem_flatMap.mp he with ⟨r, _, hr⟩
  simp [(tickerEvents_terminal_free hr).2]

theorem commitCount_ingest_trace (rs : List FetchResult) (b : Bool) :
    commitCount (ingest_trace rs b) = if b then 1 else 0 := by
  rw [commitCount, ingest_trace, List.filter_append, List.filter_append,
    flatMap_tickerEvents_no_commit]
  cases b <;> simp

theorem rollbackCount_ingest_trace (rs : List FetchResult) (b : Bool) :
    rollbackCount (ingest_trace rs b) = if b then 0 else 1 := by
  rw [rollbackCount, ingest_trace, List.filter_append, List.filter_append,
    flatMap_tickerEvents_no_rollback]
  cases b <;> simp

theorem writeCount_flatMap (rs : List FetchResult) :
    ((rs.flatMap tickerEvents).filter isInsertStmt).length =
      (rs.filter writeSucceeds).length := by
  induction rs with
  | nil => rfl
  | cons r rest ih =>
      rw [List.flatMap_cons, List.filter_append, List.length_append, ih,
        List.filter_cons]
      rcases r with ⟨tk, fr, oc⟩
      cases fr with
      | none => simp [tickerEvents, writeSucceeds]
      | some df =>
          cases oc <;>
            simp [tickerEvents, writeSucceeds, isInsertStmt, Nat.add_comm]

theorem writeCount_ingest_trace (rs : List FetchResult) :
    writeCount (ingest_trace rs true) = (rs.filter writeSucceeds).length := by
  rw [writeCount, ingest_trace]
  simp only [if_pos]
  rw [List.filter_append, List.filter_append]
  simp [isInsertStmt, writeCount_flatMap]

theorem ingest_foldl_snd (rs : List FetchResult) :
    ∀ (T : List PriceRow) (fs : List Str),
      (rs.foldl ingest_step (T, fs)).2 =
        fs ++ (rs.filter (fun r => ¬ writeSucceeds r)).map FetchResult.ticker := by
  induction rs with
  | nil => intro T fs; simp
  | cons r rest ih =>
      intro T fs
      simp only [List.foldl_cons]
      rcases r with ⟨tk, fr, oc⟩
      cases fr with
      | none => simp [ingest_step, writeSucceeds, List.filter_cons, ih]
      | some df =>
          cases oc <;> simp [ingest_step, writeSucceeds, List.filter_cons, ih]

theorem filter_swap (p q : α → Bool) (l : List α) :
    (l.filter p).filter q = (l.filter q).filter p := by
  simp only [List.filter_filter]
  congr 1
  funext a
  exact Bool.and_comm _ _

theorem ingest_fold_view (d : Date) (t : Str) (rs : List FetchResult) :
    ∀ (T : List PriceRow) (fs : List Str),
      ((rs.foldl ingest_step (T, fs)).1).filter
          (fun r' => decide (r'.date = d ∧ r'.ticker = t)) =
        rs.foldl (viewStep d t)
          (T.filter (fun r' => decide (r'.date = d ∧ r'.ticker = t))) := by
  induction rs with
  | nil => intro T fs; rfl
  | cons r rest ih =>
      intro T fs
      simp only [List.foldl_cons]
      rcases r with ⟨tk, fr, oc⟩
      cases fr with
      | none =>
          rw [show ingest_step (T, fs) ⟨tk, none, oc⟩ = (T, fs ++ [tk]) from rfl, ih]
          rfl
      | some df =>
          cases oc with
          | ok =>
              rw [show ingest_step (T, fs) ⟨tk, some df, WriteOutcome.ok⟩ =
                  (upsert_stock_prices T df, fs) from rfl, ih]
              congr 1
              rw [show viewStep d t
                    (T.filter (fun r' => decide (r'.date = d ∧ r'.ticker = t)))
                    ⟨tk, some df, WriteOutcome.ok⟩ =
                  deleteKeys (T.filter (fun r' => decide (r'.date = d ∧ r'.ticker = t))) df ++
                    df.filter (fun s => decide (s.date = d ∧ s.ticker = t)) from rfl]
              rw [upsert_stock_prices, List.filter_append, deleteKeys, deleteKeys,
                filter_swap]
          | failBeforeDelete =>
              rw [show ingest_step (T, fs) ⟨tk, some df, WriteOutcome.failBeforeDelete⟩ =
                  (T, fs ++ [tk]) from rfl, ih]
              rfl
          | failAfterDelete =>
              rw [show ingest_step (T, fs) ⟨tk, some df, WriteOutcome.failAfterDelete⟩ =
                  (deleteKeys T df, fs ++ [tk]) from rfl, ih]
              congr 1
              rw [show viewStep d t
                    (T.filter (fun r' => decide (r'.date = d ∧ r'.ticker = t)))
                    ⟨tk, some df, WriteOutcome.failAfterDelete⟩ =
                  deleteKeys (T.filter (fun r' => decide (r'.date = d ∧ r'.ticker = t))) df
                  from rfl]
              rw [deleteKeys, deleteKeys, filter_swap]

theorem viewfold_success_only (d : Date) (t : Str) (rs : List FetchResult) :
    ∀ V : List PriceRow,
      (∀ r ∈ rs, writeSucceeds r = false → touchesKey r d t = false) →
      (∀ r' ∈ V, r'.date = d ∧ r'.ticker = t) →
      rs.foldl (viewStep d t) V =
        (rs.filter writeSucceeds).foldl (viewStep d t) V := by
  induction rs with
  | nil => intro V _ _; rfl
  | cons r rest ih =>
      intro V hun hV
      rcases r with ⟨tk, fr, oc⟩
      have hun' : ∀ x ∈ rest, writeSucceeds x = false → touchesKey x d t = false :=
        fun x hx => hun x (List.mem_cons_of_mem _ hx)
      have hunr := hun ⟨tk, fr, oc⟩ (List.mem_cons_self _ _)
      cases fr with
      | none =>
          rw [List.filter_cons, if_neg (by simp [writeSucceeds]),
            List.foldl_cons,
            show viewStep d t V ⟨tk, none, oc⟩ = V from rfl]
          exact ih V hun' hV
      | some df =>
          cases oc with
          | ok =>
              rw [List.filter_cons, if_pos (by simp [writeSucceeds]),
                List.foldl_cons, List.foldl_cons]
              apply ih _ hun'
              intro r' hr'
              rw [show viewStep d t V ⟨tk, some df, WriteOutcome.ok⟩ =
                  deleteKeys V df ++
                    df.filter (fun s => decide (s.date = d ∧ s.ticker = t)) from rfl]
                at hr'
              rcases List.mem_append.mp hr' with h1 | h2
              · exact hV r' (List.mem_filter.mp h1).1
              · exact of_decide_eq_true (List.mem_filter.mp h2).2
          | failBeforeDelete =>
              rw [List.filter_cons, if_neg (by simp [writeSucceeds]),
                List.foldl_cons,
                show viewStep d t V ⟨tk, some df, WriteOutcome.failBeforeDelete⟩ = V
                  from rfl]
              exact ih V hun' hV
          | failAfterDelete =>
              rw [List.filter_cons, if_neg (by simp [writeSucceeds]),
                List.foldl_cons]
              have htouch : df.any (fun s => decide (s.date = d ∧ s.ticker = t)) = false :=
                hunr (by simp [writeSucceeds])
              have hdel : viewStep d t V ⟨tk, some df, WriteOutcome.failAfterDelete⟩ = V := by
                rw [show viewStep d t V ⟨tk, some df, WriteOutcome.failAfterDelete⟩ =
                    deleteKeys V df from rfl, deleteKeys]
                apply List.filter_eq_self.mpr
                intro r' hr'
                have hk := hV r' hr'
                simp only [keyIn, hk.1, hk.2, htouch]
                decide
              rw [hdel]
              exact ih V hun' hV

/-- C2 counterexample: two tickers both complete their fetch and write
successfully, yet the trace commits once, not once per written ticker;
moreover a ticker whose write raises between its `DELETE` and its `INSERT`
is not rolled back — its pre-existing row is gone from the committed
table, so failed writes are not isolated by per-ticker transactions. -/
theorem ingestion_not_per_ticker_commits :
    (([resA, resB].filter writeSucceeds).length = 2 ∧
      commitCount (ingest_trace [resA, resB] true) ≠ 2) ∧
    (fetch_all_stocks_parallel [resC] true [rowC0]).1 = [] := by
  refine ⟨⟨?_, ?_⟩, ?_⟩ <;> decide

/-- C2 (amended): ingestion runs the whole completion loop inside one shared
transaction — one `BEGIN`, and exactly one final `COMMIT` (or exactly one
`ROLLBACK` when committing raises), never a commit per ticker. A per-ticker
write exception is caught, the ticker recorded as failed, and the loop
continues; at every `(date, ticker)` key not named in any failing ticker's
frame the committed table is exactly as if the failed tickers were absent.
There is no per-ticker rollback: a failure between a ticker's `DELETE` and
`INSERT` leaves that ticker's old rows deleted, and a failing `COMMIT`
reverts the whole table and records every ticker as failed. -/
theorem ingestion_single_transaction_isolation (results : List FetchResult)
    (T : List PriceRow) :
    (∀ b, commitCount (ingest_trace results b) = if b then 1 else 0) ∧
    (∀ b, rollbackCount (ingest_trace results b) = if b then 0 else 1) ∧
    writeCount (ingest_trace results true) =
      (results.filter writeSucceeds).length ∧
    (fetch_all_stocks_parallel results true T).2 =
      (results.filter (fun r => ¬ writeSucceeds r)).map FetchResult.ticker ∧
    (∀ (d : Date) (t : Str),
      (∀ r ∈ results, writeSucceeds r = false → touchesKey r d t = false) →
      (fetch_all_stocks_parallel results true T).1.filter
          (fun r' => decide (r'.date = d ∧ r'.ticker = t)) =
        (fetch_all_stocks_parallel (results.filter writeSucceeds) true T).1.filter
          (fun r' => decide (r'.date = d ∧ r'.ticker = t))) ∧
    ((fetch_all_stocks_parallel results false T).1 = T ∧
      ∀ r ∈ results, r.ticker ∈ (fetch_all_stocks_parallel results false T).2) := by
  refine ⟨commitCount_ingest_trace results, rollbackCount_ingest_trace results,
    writeCount_ingest_trace results, ?_, ?_, ?_, ?_⟩
  · simp only [fetch_all_stocks_parallel, if_pos]
    simpa using ingest_foldl_snd results T []
  · intro d t hun
    simp only [fetch_all_stocks_parallel, if_pos]
    rw [ingest_fold_view, ingest_fold_view]
    apply viewfold_success_only d t results _ hun
    intro r' hr'
    exact of_decide_eq_true (List.mem_filter.mp hr').2
  · simp [fetch_all_stocks_parallel]
  · intro r hr
    simp only [fetch_all_stocks_parallel, Bool.false_eq_true, if_neg]
    by_cases hmem : r.ticker ∈ (results.foldl ingest_step (T, [])).2
    · exact List.mem_append.mpr (Or.inl hmem)
    · refine List.mem_append.mpr (Or.inr ?_)
      exact List.mem_map.mpr ⟨r, List.mem_filter.mpr ⟨hr, by simpa using hmem⟩, rfl⟩

/-- C2 witness: for the two-ticker run, a failing commit yields zero commits
and an unchanged table, and at an untouched key the committed table agrees
with the successful-tickers-only run. -/
theorem ingestion_single_transaction_isolation_witness :
    commitCount (ingest_trace [resA, resB] false) = 0 ∧
    (fetch_all_stocks_parallel [resA, resB] false []).1 = [] ∧
    (fetch_all_stocks_parallel [resA, resB] true []).1.filter
        (fun r' => decide (r'.date = 0 ∧ r'.ticker = ['Z'])) =
      (fetch_all_stocks_parallel ([resA, resB].filter writeSucceeds) true []).1.filter
        (fun r' => decide (r'.date = 0 ∧ r'.ticker = ['Z'])) := by
  have h := ingestion_single_transaction_isolation [resA, resB] []
  exact ⟨by simpa using h.1 false, h.2.2.2.2.2.1,
    h.2.2.2.2.1 0 ['Z'] (by decide)⟩

theorem keyIn_of_mem {s : PriceRow} {df : List PriceRow} (h : s ∈ df) :
    keyIn s df = true := by
  rw [keyIn, List.any_eq_true]
  exact ⟨s, h, by simp⟩

theorem upsert_stock_prices_idem (T df : List PriceRow) :
    upsert_stock_prices (upsert_stock_prices T df) df =
      upsert_stock_prices T df := by
  unfold upsert_stock_prices deleteKeys
  rw [List.filter_append, List.filter_filter]
  have h1 : (T.filter (fun r =>
      decide ¬keyIn r df = true && decide ¬keyIn r df = true)) =
      T.filter (fun r => ¬ keyIn r df) := by
    simp
  have h2 : df.filter (fun r => ¬ keyIn r df) = [] := by
    apply List.filter_eq_nil_iff.mpr
    intro a ha
    simp [keyIn_of_mem ha]
  rw [h2]
  simp

theorem countKey_upsert_single (T : List PriceRow) (p : PriceRow) :
    countKey (upsert_stock_prices T [p]) p.date p.ticker = 1 := by
  unfold countKey upsert_stock_prices deleteKeys
  rw [List.filter_append]
  have h1 : (T.filter (fun r => ¬ keyIn r [p])).filter
      (fun r => decide (r.date = p.date ∧ r.ticker = p.ticker)) = [] := by
    apply List.filter_eq_nil_iff.mpr
    intro a ha
    have hk : ¬ keyIn a [p] = true := by
      have := (List.mem_filter.mp ha).2
      simpa using this
    intro hmatch
    apply hk
    rw [keyIn]
    simp only [List.any_cons, List.any_nil, Bool.or_false]
    have h' := of_decide_eq_true hmatch
    simp [h'.1, h'.2]
  have h2 : ([p].filter (fun r => decide (r.date = p.date ∧ r.ticker = p.ticker))) = [p] := by
    simp
  rw [h1, h2]
  rfl

set_option maxRecDepth 100000 in
/-- C3 counterexample: running `build_index` twice for the same date over
the same 100-row universe leaves two `index_values` rows for that date, not
one — the snapshot write is a plain `INSERT`, not an upsert. -/
theorem build_index_twice_two_rows :
    ((build_index prices100 [] (build_index prices100 [] [] 0) 0).filter
      (fun r => r.date = 0)).length ≠ 1 := by
  with_unfolding_all decide

/-- C3 (amended): the PricePoint write path is an idempotent upsert — writing
the same batch twice equals writing it once, and a single-row batch leaves
exactly one row for its key — but the IndexSnapshot write path appends, so
running `build_index` twice for the same date adds two rows for that date. -/
theorem pricepoint_upsert_snapshot_append (T df : List PriceRow) (p : PriceRow)
    (sp : List PriceRow) (mi : List SpyRow) (iv : List IndexRow) (d : Date)
    (top : List PriceRow) :
    upsert_stock_prices (upsert_stock_prices T df) df = upsert_stock_prices T df ∧
    countKey (upsert_stock_prices T [p]) p.date p.ticker = 1 ∧
    (fetch_top_100_by_market_cap sp d = some top →
      ((build_index sp mi (build_index sp mi iv d) d).filter
          (fun r => r.date = d)).length =
        (iv.filter (fun r => r.date = d)).length + 2) := by
  refine ⟨upsert_stock_prices_idem T df, countKey_upsert_single T p, ?_⟩
  intro h
  have hb : ∀ X : List IndexRow, build_index sp mi X d =
      X ++ [{ date := d,
              index_value := round4 ((top.map (fun r => r.close * (1/100))).sum),
              spy_value := fetch_spy_value mi d,
              tickers := some (joinComma (top.map PriceRow.ticker)) }] := by
    intro X
    unfold build_index
    rw [h]
  rw [hb, hb]
  simp [List.filter_append]

set_option maxRecDepth 100000 in
/-- C3 witness: over the concrete 100-row universe, two runs of
`build_index` for day 0 leave two rows for day 0 (starting from an empty
table). -/
theorem pricepoint_upsert_snapshot_append_witness :
    ((build_index prices100 [] (build_index prices100 [] [] 0) 0).filter
      (fun r => r.date = 0)).length = 2 := by
  have h := (pricepoint_upsert_snapshot_append [] [] default prices100 [] [] 0
    (List.replicate 100 { date := 0, ticker := ['T'], close := 10, market_cap := 1 })).2.2
    (by decide)
  simpa using h

theorem mem_dedupByDateAux {l : List (IndexRow × SpyRow)} :
    ∀ {seen : List Date} {q : IndexRow × SpyRow},
      q ∈ dedupByDateAux seen l → q ∈ l ∧ q.1.date ∉ seen := by
  induction l with
  | nil => intro seen q h; cases h
  | cons p ps ih =>
      intro seen q h
      rw [dedupByDateAux] at h
      split at h
      · rcases ih h with ⟨hmem, hns⟩
        exact ⟨List.mem_cons_of_mem p hmem, hns⟩
      · rename_i hns
        rcases List.mem_cons.mp h with rfl | h'
        · exact ⟨List.mem_cons_self _ _, hns⟩
        · rcases ih h' with ⟨hmem, hns'⟩
          exact ⟨List.mem_cons_of_mem p hmem,
            fun hc => hns' (List.mem_cons_of_mem _ hc)⟩

theorem nodup_keys_dedupByDateAux (l : List (IndexRow × SpyRow)) :
    ∀ seen : List Date,
      ((dedupByDateAux seen l).map (fun p => p.1.date)).Nodup := by
  induction l with
  | nil => intro seen; simp [dedupByDateAux]
  | cons p ps ih =>
      intro seen
      rw [dedupByDateAux]
      split
      · exact ih seen
      · simp only [List.map_cons, List.nodup_cons]
        constructor
        · intro hc
          rcases List.mem_map.mp hc with ⟨q, hq, hqd⟩
          exact (mem_dedupByDateAux hq).2 (hqd ▸ List.mem_cons_self _ _)
        · exact ih _

theorem length_filter_key_le_one {α : Type*} (key : α → Date) (d : Date)
    (l : List α) (h : (l.map key).Nodup) :
    (l.filter (fun a => decide (key a = d))).length ≤ 1 := by
  induction l with
  | nil => simp
  | cons x xs ih =>
      simp only [List.map_cons, List.nodup_cons] at h
      rw [List.filter_cons]
      by_cases hx : key x = d
      · rw [if_pos (by simp [hx])]
        have hnil : xs.filter (fun a => decide (key a = d)) = [] := by
          apply List.filter_eq_nil_iff.mpr
          intro a ha
          simp only [decide_eq_true_eq]
          intro had
          exact h.1 (List.mem_map.mpr ⟨a, ha, by rw [had, hx]⟩)
        simp [hnil]
      · rw [if_neg (by simp [hx])]
        exact ih h.2

theorem buildMetricRows_map_date (ms : List (IndexRow × SpyRow)) :
    (buildMetricRows ms).map MetricRow.date = ms.map (fun p => p.1.date) := by
  unfold buildMetricRows
  apply List.ext_getElem
  · simp
  · intro i h1 h2
    have hi : i < ms.length := by
      simpa using h2
    simp [List.getD_eq_getElem ms default hi, List.getElem?_eq_getElem hi]

theorem daily_metric_rows_spec (iv : List IndexRow) (mi : List SpyRow)
    (d : Date) :
    (daily_metric_rows iv mi d).length ≤ 1 ∧
    ∀ r ∈ daily_metric_rows iv mi d, r.date = d := by
  have hnodup : ((mergedFrame iv mi d).map (fun p => p.1.date)).Nodup := by
    simp only [mergedFrame, dedupByDate]
    exact nodup_keys_dedupByDateAux _ []
  constructor
  · simp only [daily_metric_rows]
    split
    · simp
    · split
      · apply length_filter_key_le_one MetricRow.date d
        rw [buildMetricRows_map_date]
        exact hnodup
      · simp
  · intro r hr
    simp only [daily_metric_rows] at hr
    split at hr
    · cases hr
    · split at hr
      · exact of_decide_eq_true (List.mem_filter.mp hr).2
      · cases hr

set_option maxRecDepth 100000 in
/-- C4 counterexample: with one `index_values` row and one benchmark row for
day 10, calling `compute_daily_metrics` twice for day 10 leaves two
`index_metrics` rows for that date, not the single row idempotence would
demand — the write is a plain `INSERT`, not delete-then-insert. -/
theorem compute_daily_metrics_twice_two_rows :
    ((compute_daily_metrics iv1 mi1 (compute_daily_metrics iv1 mi1 [] 10) 10).filter
      (fun r => r.date = 10)).length ≠ 1 := by
  with_unfolding_all decide

/-- C4 (amended): `compute_daily_metrics` recomputes the same at-most-one
row for the target date on every call and appends it; calling it twice
appends that row twice instead of leaving the table as after one call. -/
theorem compute_daily_metrics_append_only (iv : List IndexRow)
    (mi : List SpyRow) (m : List MetricRow) (d : Date) :
    compute_daily_metrics iv mi (compute_daily_metrics iv mi m d) d =
      m ++ daily_metric_rows iv mi d ++ daily_metric_rows iv mi d ∧
    (daily_metric_rows iv mi d).length ≤ 1 ∧
    (∀ r ∈ daily_metric_rows iv mi d, r.date = d) := by
  exact ⟨by simp [compute_daily_metrics], (daily_metric_rows_spec iv mi d).1,
    (daily_metric_rows_spec iv mi d).2⟩

/-- C4 witness: the double-call decomposition at the concrete day-10
dataset. -/
theorem compute_daily_metrics_append_only_witness :
    compute_daily_metrics iv1 mi1 (compute_daily_metrics iv1 mi1 [] 10) 10 =
      [] ++ daily_metric_rows iv1 mi1 10 ++ daily_metric_rows iv1 mi1 10 :=
  (compute_daily_metrics_append_only iv1 mi1 [] 10).1

/-- C9: one call of `compute_daily_metrics` writes at most the single
`index_metrics` row keyed by the target date, and rows keyed by any other
date are exactly those already present. -/
theorem compute_daily_metrics_frame_effect (iv : List IndexRow)
    (mi : List SpyRow) (m : List MetricRow) (d : Date) :
    (daily_metric_rows iv mi d).length ≤ 1 ∧
    (∀ r ∈ daily_metric_rows iv mi d, r.date = d) ∧
    (compute_daily_metrics iv mi m d).filter (fun r => decide (¬ r.date = d)) =
      m.filter (fun r => decide (¬ r.date = d)) := by
  refine ⟨(daily_metric_rows_spec iv mi d).1, (daily_metric_rows_spec iv mi d).2, ?_⟩
  rw [compute_daily_metrics, List.filter_append]
  have hnil : (daily_metric_rows iv mi d).filter (fun r => decide (¬ r.date = d)) = [] := by
    apply List.filter_eq_nil_iff.mpr
    intro r hr
    simp [(daily_metric_rows_spec iv mi d).2 r hr]
  rw [hnil, List.append_nil]

/-- C9 witness: a day-10 call leaves the pre-existing day-7 row exactly in
place. -/
theorem compute_daily_metrics_frame_effect_witness :
    (compute_daily_metrics iv1 mi1 [mrow7] 10).filter
      (fun r => decide (¬ r.date = 10)) = [mrow7] := by
  have h := (compute_daily_metrics_frame_effect iv1 mi1 [mrow7] 10).2.2
  rw [h]
  simp [mrow7]

theorem sampleVarQ_nil : sampleVarQ [] = 0 := by
  simp [sampleVarQ]

theorem sampleVarQ_nonneg (l : List ℚ) : 0 ≤ sampleVarQ l := by
  cases l with
  | nil => rw [sampleVarQ_nil]
  | cons x xs =>
      apply div_nonneg
      · apply List.sum_nonneg
        intro q hq
        rcases List.mem_map.mp hq with ⟨y, _, rfl⟩
        exact sq_nonneg _
      · have : (1 : ℚ) ≤ ((x :: xs).length : ℚ) := by
          exact_mod_cast Nat.succ_le_of_lt (by simp)
        linarith

theorem sampleVarQ_const {rs : List ℚ} {c : ℚ} (h : ∀ x ∈ rs, x = c) :
    sampleVarQ rs = 0 := by
  cases hrs : rs with
  | nil => exact sampleVarQ_nil
  | cons x xs =>
      subst hrs
      have hmean : meanQ (x :: xs) = c := by
        have hsum : (x :: xs).sum = (x :: xs).length • c :=
          List.sum_eq_card_nsmul _ c h
        rw [meanQ, hsum, nsmul_eq_mul]
        have hne : ((x :: xs).length : ℚ) ≠ 0 := by
          have : (x :: xs).length ≠ 0 := Nat.succ_ne_zero xs.length
          exact_mod_cast this
        field_simp
      rw [sampleVarQ, hmean]
      have hzero : ((x :: xs).map (fun y => (y - c) ^ 2)).sum = 0 := by
        apply List.sum_eq_zero
        intro q hq
        rcases List.mem_map.mp hq with ⟨y, hy, rfl⟩
        rw [h y hy]
        ring
      rw [hzero, zero_div]

theorem stdR_pos_iff (l : List ℚ) : 0 < stdR l ↔ 0 < sampleVarQ l := by
  rw [stdR, Real.sqrt_pos]
  exact_mod_cast Iff.rfl

/-- C7: the summary row stores `sharpe = mean(r)/std(r)` when `std(r) > 0`
and exactly `0` otherwise; in particular, a window of all-equal daily
returns has zero sample variance, so its stored Sharpe ratio is exactly `0`
— a real number, never NaN and never a division error. -/
theorem sharpe_zero_variance_safe (w : ℕ) (d : Date) (df : List MetricRow)
    (rs : List ℚ) :
    (dataSummaryRow w d df).sharpe_val =
      some (sharpe_of (df.map MetricRow.daily_return)) ∧
    (0 < stdR rs ↔ 0 < sampleVarQ rs) ∧
    (0 < sampleVarQ rs → sharpe_of rs = (meanQ rs : ℝ) / stdR rs) ∧
    (∀ c : ℚ, (∀ x ∈ rs, x = c) → sharpe_of rs = 0) := by
  refine ⟨rfl, stdR_pos_iff rs, ?_, ?_⟩
  · intro h
    rw [sharpe_of, if_pos h]
  · intro c hc
    rw [sharpe_of, if_neg]
    rw [sampleVarQ_const hc]
    exact lt_irrefl 0

/-- C7 witness: a window whose daily returns are all `1/2` gets Sharpe
ratio exactly `0`. -/
theorem sharpe_zero_variance_safe_witness :
    sharpe_of [(1:ℚ)/2, 1/2] = 0 := by
  apply (sharpe_zero_variance_safe 30 0 [] [(1:ℚ)/2, 1/2]).2.2.2 ((1:ℚ)/2)
  intro x hx
  rcases List.mem_cons.mp hx with rfl | hx'
  · rfl
  · rcases List.mem_cons.mp hx' with rfl | hx''
    · rfl
    · cases hx''

theorem card_symmDiffF_le (a b : Finset Str) :
    (symmDiffF a b).card ≤ a.card + b.card := by
  rw [symmDiffF]
  calc ((a \ b) ∪ (b \ a)).card ≤ (a \ b).card + (b \ a).card :=
        Finset.card_union_le _ _
    _ ≤ a.card + b.card :=
        Nat.add_le_add (Finset.card_le_card (Finset.sdiff_subset))
          (Finset.card_le_card (Finset.sdiff_subset))

theorem jaccard_bounds (a b : Finset Str) :
    0 ≤ jaccard a b ∧ jaccard a b ≤ 1 := by
  rw [jaccard]
  split
  · norm_num
  · rename_i hne
    have hpos : (0 : ℚ) < ((a ∪ b).card : ℚ) := by
      have : 0 < (a ∪ b).card :=
        Finset.card_pos.mpr (Finset.nonempty_iff_ne_empty.mpr hne)
      exact_mod_cast this
    constructor
    · apply div_nonneg <;> positivity
    · rw [div_le_one hpos]
      exact_mod_cast Finset.card_le_card
        ((Finset.inter_subset_left).trans Finset.subset_union_left)

theorem mem_turnoverAux_le {l : List (Finset Str)} :
    ∀ {prev : Finset Str} {t : ℕ}, t ∈ turnoverAux prev l →
      prev.card ≤ 100 → (∀ s ∈ l, s.card ≤ 100) → t ≤ 200 := by
  induction l with
  | nil => intro prev t ht _ _; cases ht
  | cons c rest ih =>
      intro prev t ht hprev hall
      rcases List.mem_cons.mp ht with rfl | ht'
      · have hc : c.card ≤ 100 := hall c (List.mem_cons_self _ _)
        have := card_symmDiffF_le c prev
        omega
      · exact ih ht' (hall c (List.mem_cons_self _ _))
          (fun s hs => hall s (List.mem_cons_of_mem c hs))

theorem mem_simAux_bounds {l : List (Finset Str)} :
    ∀ {prev : Finset Str} {q : ℚ}, q ∈ simAux prev l → 0 ≤ q ∧ q ≤ 1 := by
  induction l with
  | nil => intro prev q hq; cases hq
  | cons c rest ih =>
      intro prev q hq
      rcases List.mem_cons.mp hq with rfl | hq'
      · exact jaccard_bounds c prev
      · exact ih hq'

/-- C8: over any sequence of constituent sets of at most 100 tickers each
(an IndexSnapshot carries exactly 100), every turnover entry lies in
`[0, 200]`, every exposure-similarity entry lies in `[0, 1]`, and the first
observation gets turnover `0` and similarity `1`. -/
theorem turnover_similarity_bounds (tsets : List (Finset Str))
    (h : ∀ s ∈ tsets, s.card ≤ 100) :
    (∀ t ∈ turnovers tsets, t ≤ 200) ∧
    (∀ q ∈ sims tsets, 0 ≤ q ∧ q ≤ 1) ∧
    (tsets ≠ [] → (turnovers tsets).head? = some 0 ∧
      (sims tsets).head? = some 1) := by
  refine ⟨?_, ?_, ?_⟩
  · intro t ht
    cases tsets with
    | nil => cases ht
    | cons s rest =>
        rcases List.mem_cons.mp ht with rfl | ht'
        · omega
        · exact mem_turnoverAux_le ht' (h s (List.mem_cons_self _ _))
            (fun x hx => h x (List.mem_cons_of_mem s hx))
  · intro q hq
    cases tsets with
    | nil => cases hq
    | cons s rest =>
        rcases List.mem_cons.mp hq with rfl | hq'
        · norm_num
        · exact mem_simAux_bounds hq'
  · intro hne
    cases tsets with
    | nil => exact absurd rfl hne
    | cons s rest => exact ⟨rfl, rfl⟩

/-- C8 witness: a one-day history with an empty constituent set has
turnover `0` and similarity `1` on its first observation. -/
theorem turnover_similarity_bounds_witness :
    (turnovers [(∅ : Finset Str)]).head? = some 0 ∧
      (sims [(∅ : Finset Str)]).head? = some 1 :=
  (turnover_similarity_bounds [∅] (by intro s hs; simp at hs; simp [hs])).2.2
    (by simp)

/-- C5: with the shipped `src/config.py`, `compute_summary_metrics` never
reaches the insufficient-data path — `Config.get_fetch_days()` raises
`AttributeError` (the method does not exist), the handler swallows it, and
no row at all is inserted for a one-observation window; had the method
returned a window (as the tests patch it to do), the same call would insert
the all-null row keyed by `(end_date, window_days)` that the spec
requires. -/
theorem compute_summary_metrics_attribute_error :
    compute_summary_metrics [mrow5] [] 5 = [] ∧
    summary_step 30 [mrow5] [] 5 = [nullSummaryRow 5 30] :=
  ⟨rfl, rfl⟩
